import Mathlib

/-!
Verification of the `mongodb-node` repository against its specification.

Part A embeds the transactional unit-of-work executor that the
specification defines in abstract form (sections 3, 4.1, 5 and 7 of the
spec); the repository contains only example call sites
(`transactionWithRetry` and the `session.withTransaction` blocks in
`src/unnamed/part_000`), not the executor itself, so the executor is
modelled from the spec text.

Part B embeds the concrete repository functions `resultSaver`
(`src/src/index.ts`), `findByEmail` (`src/src/models/User.ts`) and
`rent` (`src/src/models/Movie.ts`).
-/

namespace UnitOfWork

/-- Modelled from the spec: the outcome of one invocation of the
caller-supplied operation (spec section 7 taxonomy `OpError::Fatal`,
`OpError::Transient`, plus the case in which the operation
panics/throws, mentioned in the side-effects clause of section 4.1).
Causes are carried as strings for diagnostics. -/
inductive OpOutcome (α : Type) where
  | success (v : α) : OpOutcome α
  | transient (cause : String) : OpOutcome α
  | fatal (cause : String) : OpOutcome α
  | raised (cause : String) : OpOutcome α
deriving DecidableEq, Repr

/-- Modelled from the spec: the outcome of the commit step of one
attempt (spec section 4.1 step 3: success, transient conflict, or
fatal commit failure). -/
inductive CommitOutcome where
  | ok : CommitOutcome
  | transient (cause : String) : CommitOutcome
  | fatal (cause : String) : CommitOutcome
deriving DecidableEq, Repr

/-- Modelled from the spec: the behaviour the external store exhibits
on one attempt — whether session acquisition succeeds, what the
operation invocation returns, and how the commit ends (the commit
field is consulted only when the operation succeeds).  The executor
itself is deterministic; all nondeterminism of the store is folded
into this environment, indexed by the 0-based attempt number. -/
structure AttemptBehavior (α : Type) where
  acquireOk : Bool
  op : OpOutcome α
  commit : CommitOutcome
deriving DecidableEq, Repr

/-- Modelled from the spec: `RetryPolicy` — max attempts and a backoff
schedule (section 3).  `backoff i` is the delay inserted after the
transient failure of 0-based attempt `i`, before attempt `i+1`. -/
structure RetryPolicy where
  maxAttempts : Nat
  backoff : Nat → Nat

/-- Modelled from the spec: the executor-level error taxonomy of
section 7. `opRaised` covers an operation that panics/throws
(section 4.1 requires cleanup on that path too; the propagation policy
of section 7 requires every exit path to return a typed result). -/
inductive ExecError where
  | sessionAcquireFailed : ExecError
  | opFatal (cause : String) : ExecError
  | opRaised (cause : String) : ExecError
  | commitFatal (cause : String) : ExecError
  | retriesExhausted (lastCause : String) : ExecError
  | cancelled : ExecError
deriving DecidableEq, Repr

/-- Modelled from the spec: the observable events of one `Run` call.
Sessions are identified by the 0-based attempt number that created
them (section 3: a session is bound to exactly one attempt). `wait d`
records the backoff delay `d` inserted between two attempts. -/
inductive Event where
  | acquire (attempt : Nat) : Event
  | invoke (attempt : Nat) : Event
  | commit (attempt : Nat) : Event
  | abort (attempt : Nat) : Event
  | release (attempt : Nat) : Event
  | wait (delay : Nat) : Event
deriving DecidableEq, Repr

/-- Modelled from the spec: the per-attempt loop of section 4.1, from
attempt number `i` with `fuel` attempts remaining.  Each attempt:
acquire a fresh session (failure is fatal, not retried); invoke the
operation; on success attempt the commit (success returns, fatal
commit failure returns, transient commit failure retries); on fatal or
raised operation outcome abort and return; on transient outcome abort
and, if attempts remain, consult the cancellation signal, wait the
scheduled backoff and recurse, else report retries exhausted.  The
session is released on every exit path of the attempt.  `cancel i`
samples the optional cancellation signal during the backoff that
follows attempt `i`. -/
def runFrom {α : Type} (env : Nat → AttemptBehavior α) (pol : RetryPolicy)
    (cancel : Nat → Bool) : Nat → Nat → Except ExecError α × List Event
  | _, 0 => (.error (.retriesExhausted "no attempt budget"), [])
  | i, fuel + 1 =>
    let b := env i
    if b.acquireOk then
      match b.op with
      | .success v =>
        match b.commit with
        | .ok => (.ok v, [.acquire i, .invoke i, .commit i, .release i])
        | .fatal c =>
            (.error (.commitFatal c), [.acquire i, .invoke i, .commit i, .release i])
        | .transient c =>
            if fuel = 0 then
              (.error (.retriesExhausted c), [.acquire i, .invoke i, .commit i, .release i])
            else if cancel i then
              (.error .cancelled, [.acquire i, .invoke i, .commit i, .release i])
            else
              let rest := runFrom env pol cancel (i + 1) fuel
              (rest.1, [.acquire i, .invoke i, .commit i, .release i,
                        .wait (pol.backoff i)] ++ rest.2)
      | .fatal c =>
          (.error (.opFatal c), [.acquire i, .invoke i, .abort i, .release i])
      | .raised c =>
          (.error (.opRaised c), [.acquire i, .invoke i, .abort i, .release i])
      | .transient c =>
          if fuel = 0 then
            (.error (.retriesExhausted c), [.acquire i, .invoke i, .abort i, .release i])
          else if cancel i then
            (.error .cancelled, [.acquire i, .invoke i, .abort i, .release i])
          else
            let rest := runFrom env pol cancel (i + 1) fuel
            (rest.1, [.acquire i, .invoke i, .abort i, .release i,
                      .wait (pol.backoff i)] ++ rest.2)
    else
      (.error .sessionAcquireFailed, [])

/-- Modelled from the spec: `Run(operation, policy)` of section 4.1,
with the store behaviour `env` and the optional cancellation signal
`cancel` made explicit.  Returns the result delivered to the caller
together with the trace of observable events. -/
def Run {α : Type} (env : Nat → AttemptBehavior α) (pol : RetryPolicy)
    (cancel : Nat → Bool) : Except ExecError α × List Event :=
  runFrom env pol cancel 0 pol.maxAttempts

/-- Number of attempts recorded in a trace: one `invoke` event per
attempt. -/
def attemptsIn : List Event → Nat
  | [] => 0
  | .invoke _ :: tr => attemptsIn tr + 1
  | _ :: tr => attemptsIn tr

/-- Number of `acquire` events for the session of attempt `i`. -/
def acquiresOf : List Event → Nat → Nat
  | [], _ => 0
  | .acquire k :: tr, i => (if k = i then 1 else 0) + acquiresOf tr i
  | _ :: tr, i => acquiresOf tr i

/-- Number of `release` events for the session of attempt `i`. -/
def releasesOf : List Event → Nat → Nat
  | [], _ => 0
  | .release k :: tr, i => (if k = i then 1 else 0) + releasesOf tr i
  | _ :: tr, i => releasesOf tr i

/-- Number of `invoke` events for attempt `i`. -/
def invokesOf : List Event → Nat → Nat
  | [], _ => 0
  | .invoke k :: tr, i => (if k = i then 1 else 0) + invokesOf tr i
  | _ :: tr, i => invokesOf tr i

/-- The acquire/release events of a trace, in order. -/
def sessionEvents : List Event → List Event
  | [] => []
  | .acquire k :: tr => .acquire k :: sessionEvents tr
  | .release k :: tr => .release k :: sessionEvents tr
  | _ :: tr => sessionEvents tr

/-- Checks that a list of acquire/release events is a sequence of
matched pairs `acquire j, release j` with strictly increasing session
numbers starting at `i` or later: at most one session is held at a
time and no session number recurs. -/
def sessionShape : Nat → List Event → Bool
  | _, [] => true
  | i, Event.acquire j :: Event.release k :: rest =>
      j == k && i ≤ j && sessionShape (j + 1) rest
  | _, _ => false

end UnitOfWork

namespace Repo

/-- Embeds `resultSaver` of `src/src/index.ts` (lines 39-46).  The file
system is a map from path to optional contents; `stat` succeeding is
modelled as the path being present.  When `src/<filename>.json` exists
the function only logs and the file system is returned unchanged;
otherwise the serialized data is written at that path. -/
def resultSaver (fsys : String → Option String) (data filename : String) :
    String → Option String :=
  let path := "src/" ++ filename ++ ".json"
  if (fsys path).isSome then fsys
  else fun p => if p = path then some data else fsys p

/-- A stored user record, as far as `findByEmail` observes it: the
email field (the schema stores it lowercased and trimmed). -/
structure UserDoc where
  name : String
  email : String
deriving DecidableEq, Repr

/-- Embeds `findOne({ email: q })` on the users collection: the first
document whose email equals the query value, if any. -/
def findOneByEmailField (docs : List UserDoc) (q : String) : Option UserDoc :=
  docs.find? fun d => d.email = q

/-- Embeds the JavaScript builtin `String.prototype.toLowerCase` used
by `findByEmail` (an external library function), on its ASCII-letter
action: each character is lowered independently. -/
def jsToLowerCase (s : String) : String :=
  ⟨s.data.map Char.toLower⟩

/-- Embeds the query value `findByEmail` sends to the store:
`{ email: email.toLowerCase() }`. -/
def findByEmailQuery (email : String) : String :=
  jsToLowerCase email

/-- Embeds the static `findByEmail` of `src/src/models/User.ts`
(lines 47-49): `this.findOne({ email: email.toLowerCase() })`. -/
def findByEmail (docs : List UserDoc) (email : String) : Option UserDoc :=
  findOneByEmailField docs (findByEmailQuery email)

/-- A movie document, restricted to the fields the `rent` method can
touch plus representative other fields, from `src/src/models/Movie.ts`.
`rentedCount` is optional to model a document in which the field is
absent/undefined; `lastRented` holds a timestamp. -/
structure MovieDoc where
  title : String
  year : Option Nat
  genres : List String
  rentedCount : Option Nat
  lastRented : Option Nat
deriving DecidableEq, Repr

/-- Embeds the instance method `rent` of `src/src/models/Movie.ts`
(lines 100-104) applied at current time `now`:
`this.rentedCount = (this.rentedCount || 0) + 1;
 this.lastRented = new Date();` followed by `save()` — the saved
document state is the returned value.  JavaScript `x || 0` yields `0`
when `x` is `undefined` (and also when `x` is `0`), which
`Option.getD 0` reproduces. -/
def rent (m : MovieDoc) (now : Nat) : MovieDoc :=
  { m with rentedCount := some (m.rentedCount.getD 0 + 1),
           lastRented := some now }

end Repo

section UnfoldLemmas

namespace UnitOfWork

variable {α : Type}

theorem runFrom_acquireFail (env : Nat → AttemptBehavior α) (pol : RetryPolicy)
    (cancel : Nat → Bool) (i fuel : Nat) (h : (env i).acquireOk = false) :
    runFrom env pol cancel i (fuel + 1) = (.error .sessionAcquireFailed, []) := by
  simp [runFrom, h]

theorem runFrom_success_ok (env : Nat → AttemptBehavior α) (pol : RetryPolicy)
    (cancel : Nat → Bool) (i fuel : Nat) (v : α)
    (ha : (env i).acquireOk = true) (ho : (env i).op = .success v)
    (hc : (env i).commit = .ok) :
    runFrom env pol cancel i (fuel + 1) =
      (.ok v, [.acquire i, .invoke i, .commit i, .release i]) := by
  simp [runFrom, ha, ho, hc]

theorem runFrom_success_commitFatal (env : Nat → AttemptBehavior α) (pol : RetryPolicy)
    (cancel : Nat → Bool) (i fuel : Nat) (v : α) (c : String)
    (ha : (env i).acquireOk = true) (ho : (env i).op = .success v)
    (hc : (env i).commit = .fatal c) :
    runFrom env pol cancel i (fuel + 1) =
      (.error (.commitFatal c), [.acquire i, .invoke i, .commit i, .release i]) := by
  simp [runFrom, ha, ho, hc]

theorem runFrom_success_commitTransient_last (env : Nat → AttemptBehavior α)
    (pol : RetryPolicy) (cancel : Nat → Bool) (i : Nat) (v : α) (c : String)
    (ha : (env i).acquireOk = true) (ho : (env i).op = .success v)
    (hc : (env i).commit = .transient c) :
    runFrom env pol cancel i 1 =
      (.error (.retriesExhausted c), [.acquire i, .invoke i, .commit i, .release i]) := by
  simp [runFrom, ha, ho, hc]

theorem runFrom_success_commitTransient_cancel (env : Nat → AttemptBehavior α)
    (pol : RetryPolicy) (cancel : Nat → Bool) (i fuel : Nat) (v : α) (c : String)
    (hf : fuel ≠ 0) (ha : (env i).acquireOk = true) (ho : (env i).op = .success v)
    (hc : (env i).commit = .transient c) (hcn : cancel i = true) :
    runFrom env pol cancel i (fuel + 1) =
      (.error .cancelled, [.acquire i, .invoke i, .commit i, .release i]) := by
  simp [runFrom, ha, ho, hc, hf, hcn]

theorem runFrom_success_commitTransient_step (env : Nat → AttemptBehavior α)
    (pol : RetryPolicy) (cancel : Nat → Bool) (i fuel : Nat) (v : α) (c : String)
    (hf : fuel ≠ 0) (ha : (env i).acquireOk = true) (ho : (env i).op = .success v)
    (hc : (env i).commit = .transient c) (hnc : cancel i = false) :
    runFrom env pol cancel i (fuel + 1) =
      ((runFrom env pol cancel (i + 1) fuel).1,
       [.acquire i, .invoke i, .commit i, .release i, .wait (pol.backoff i)] ++
         (runFrom env pol cancel (i + 1) fuel).2) := by
  simp [runFrom, ha, ho, hc, hf, hnc]

theorem runFrom_fatal (env : Nat → AttemptBehavior α) (pol : RetryPolicy)
    (cancel : Nat → Bool) (i fuel : Nat) (c : String)
    (ha : (env i).acquireOk = true) (ho : (env i).op = .fatal c) :
    runFrom env pol cancel i (fuel + 1) =
      (.error (.opFatal c), [.acquire i, .invoke i, .abort i, .release i]) := by
  simp [runFrom, ha, ho]

theorem runFrom_raised (env : Nat → AttemptBehavior α) (pol : RetryPolicy)
    (cancel : Nat → Bool) (i fuel : Nat) (c : String)
    (ha : (env i).acquireOk = true) (ho : (env i).op = .raised c) :
    runFrom env pol cancel i (fuel + 1) =
      (.error (.opRaised c), [.acquire i, .invoke i, .abort i, .release i]) := by
  simp [runFrom, ha, ho]

theorem runFrom_transient_last (env : Nat → AttemptBehavior α) (pol : RetryPolicy)
    (cancel : Nat → Bool) (i : Nat) (c : String)
    (ha : (env i).acquireOk = true) (ho : (env i).op = .transient c) :
    runFrom env pol cancel i 1 =
      (.error (.retriesExhausted c), [.acquire i, .invoke i, .abort i, .release i]) := by
  simp [runFrom, ha, ho]

theorem runFrom_transient_cancel (env : Nat → AttemptBehavior α) (pol : RetryPolicy)
    (cancel : Nat → Bool) (i fuel : Nat) (c : String) (hf : fuel ≠ 0)
    (ha : (env i).acquireOk = true) (ho : (env i).op = .transient c)
    (hcn : cancel i = true) :
    runFrom env pol cancel i (fuel + 1) =
      (.error .cancelled, [.acquire i, .invoke i, .abort i, .release i]) := by
  simp [runFrom, ha, ho, hf, hcn]

theorem runFrom_transient_step (env : Nat → AttemptBehavior α) (pol : RetryPolicy)
    (cancel : Nat → Bool) (i fuel : Nat) (c : String) (hf : fuel ≠ 0)
    (ha : (env i).acquireOk = true) (ho : (env i).op = .transient c)
    (hnc : cancel i = false) :
    runFrom env pol cancel i (fuel + 1) =
      ((runFrom env pol cancel (i + 1) fuel).1,
       [.acquire i, .invoke i, .abort i, .release i, .wait (pol.backoff i)] ++
         (runFrom env pol cancel (i + 1) fuel).2) := by
  simp [runFrom, ha, ho, hf, hnc]

end UnitOfWork

end UnfoldLemmas

namespace UnitOfWork

variable {α : Type}

theorem attemptsIn_append (a b : List Event) :
    attemptsIn (a ++ b) = attemptsIn a + attemptsIn b := by
  induction a with
  | nil => simp [attemptsIn]
  | cons e tr ih =>
    cases e <;> simp [attemptsIn, ih, Nat.add_right_comm]

theorem acquiresOf_append (a b : List Event) (j : Nat) :
    acquiresOf (a ++ b) j = acquiresOf a j + acquiresOf b j := by
  induction a with
  | nil => simp [acquiresOf]
  | cons e tr ih => cases e <;> simp [acquiresOf, ih, Nat.add_assoc]

theorem releasesOf_append (a b : List Event) (j : Nat) :
    releasesOf (a ++ b) j = releasesOf a j + releasesOf b j := by
  induction a with
  | nil => simp [releasesOf]
  | cons e tr ih => cases e <;> simp [releasesOf, ih, Nat.add_assoc]

theorem invokesOf_append (a b : List Event) (j : Nat) :
    invokesOf (a ++ b) j = invokesOf a j + invokesOf b j := by
  induction a with
  | nil => simp [invokesOf]
  | cons e tr ih => cases e <;> simp [invokesOf, ih, Nat.add_assoc]

theorem sessionEvents_append (a b : List Event) :
    sessionEvents (a ++ b) = sessionEvents a ++ sessionEvents b := by
  induction a with
  | nil => simp [sessionEvents]
  | cons e tr ih => cases e <;> simp [sessionEvents, ih]

/-- Structural shape of a `runFrom` trace: empty (no budget or failed
acquisition), a single terminal attempt block, or an attempt block
followed by a backoff wait and the trace of the remaining attempts. -/
theorem runFrom_shape (env : Nat → AttemptBehavior α) (pol : RetryPolicy)
    (cancel : Nat → Bool) (s fuel : Nat) :
    (fuel = 0 ∧ (runFrom env pol cancel s fuel).2 = [])
    ∨ ((env s).acquireOk = false ∧ (runFrom env pol cancel s fuel).2 = [])
    ∨ (∃ m, (m = Event.commit s ∨ m = Event.abort s) ∧
        ((runFrom env pol cancel s fuel).2 = [.acquire s, .invoke s, m, .release s]
         ∨ ∃ g, fuel = g + 1 ∧ (runFrom env pol cancel s fuel).2 =
             [.acquire s, .invoke s, m, .release s, .wait (pol.backoff s)] ++
               (runFrom env pol cancel (s + 1) g).2)) := by
  cases fuel with
  | zero => exact .inl ⟨rfl, by simp [runFrom]⟩
  | succ g =>
    cases ha : (env s).acquireOk with
    | false =>
      exact .inr (.inl ⟨rfl, by rw [runFrom_acquireFail env pol cancel s g ha]⟩)
    | true =>
      refine .inr (.inr ?_)
      cases ho : (env s).op with
      | success v =>
        cases hc : (env s).commit with
        | ok =>
          exact ⟨_, .inl rfl, .inl (by rw [runFrom_success_ok env pol cancel s g v ha ho hc])⟩
        | fatal c =>
          exact ⟨_, .inl rfl, .inl (by rw [runFrom_success_commitFatal env pol cancel s g v c ha ho hc])⟩
        | transient c =>
          by_cases hg : g = 0
          · subst hg
            exact ⟨_, .inl rfl,
              .inl (by rw [runFrom_success_commitTransient_last env pol cancel s v c ha ho hc])⟩
          · cases hcn : cancel s with
            | true =>
              exact ⟨_, .inl rfl,
                .inl (by rw [runFrom_success_commitTransient_cancel env pol cancel s g v c hg ha ho hc hcn])⟩
            | false =>
              exact ⟨_, .inl rfl, .inr ⟨g, rfl,
                by rw [runFrom_success_commitTransient_step env pol cancel s g v c hg ha ho hc hcn]⟩⟩
      | fatal c =>
        exact ⟨_, .inr rfl, .inl (by rw [runFrom_fatal env pol cancel s g c ha ho])⟩
      | raised c =>
        exact ⟨_, .inr rfl, .inl (by rw [runFrom_raised env pol cancel s g c ha ho])⟩
      | transient c =>
        by_cases hg : g = 0
        · subst hg
          exact ⟨_, .inr rfl, .inl (by rw [runFrom_transient_last env pol cancel s c ha ho])⟩
        · cases hcn : cancel s with
          | true =>
            exact ⟨_, .inr rfl,
              .inl (by rw [runFrom_transient_cancel env pol cancel s g c hg ha ho hcn])⟩
          | false =>
            exact ⟨_, .inr rfl, .inr ⟨g, rfl,
              by rw [runFrom_transient_step env pol cancel s g c hg ha ho hcn]⟩⟩

end UnitOfWork

namespace UnitOfWork

variable {α : Type}

/-- In any `runFrom` trace, each session is acquired at most once and
released exactly as many times as acquired; sessions of attempts
before the start index do not occur. -/
theorem runFrom_balance (env : Nat → AttemptBehavior α) (pol : RetryPolicy)
    (cancel : Nat → Bool) :
    ∀ fuel s j,
      acquiresOf (runFrom env pol cancel s fuel).2 j =
        releasesOf (runFrom env pol cancel s fuel).2 j
      ∧ acquiresOf (runFrom env pol cancel s fuel).2 j ≤ 1
      ∧ (j < s → acquiresOf (runFrom env pol cancel s fuel).2 j = 0) := by
  intro fuel
  induction fuel with
  | zero =>
    intro s j
    simp [runFrom, acquiresOf, releasesOf]
  | succ g ih =>
    intro s j
    rcases runFrom_shape env pol cancel s (g + 1) with
      ⟨h0, _⟩ | ⟨_, htr⟩ | ⟨m, hm, htr | ⟨g', hg', htr⟩⟩
    · omega
    · simp [htr, acquiresOf, releasesOf]
    · rcases hm with rfl | rfl <;>
      · rw [htr]
        by_cases hj : s = j
        · subst hj
          simp [acquiresOf, releasesOf]
        · simp [acquiresOf, releasesOf, hj]
    · have hgg : g' = g := by omega
      rw [hgg] at htr
      obtain ⟨ihb, ihle, ihlt⟩ := ih (s + 1) j
      rcases hm with rfl | rfl <;>
      · rw [htr, acquiresOf_append, releasesOf_append]
        by_cases hj : s = j
        · subst hj
          have h0 := ihlt (Nat.lt_succ_self s)
          have h0r : releasesOf (runFrom env pol cancel (s + 1) g).2 s = 0 := by
            rw [← ihb]
            exact h0
          refine ⟨?_, ?_, ?_⟩
          · simp [acquiresOf, releasesOf, h0, h0r]
          · simp [acquiresOf, h0]
          · intro h
            exact absurd h (Nat.lt_irrefl s)
        · refine ⟨?_, ?_, ?_⟩
          · simp [acquiresOf, releasesOf, hj, ihb]
          · simpa [acquiresOf, hj] using ihle
          · intro hlt
            simp [acquiresOf, hj, ihlt (by omega : j < s + 1)]

/-- Each attempt invokes the operation exactly once per session it
acquired: invoke and acquire counts agree for every attempt. -/
theorem runFrom_invokes_eq_acquires (env : Nat → AttemptBehavior α) (pol : RetryPolicy)
    (cancel : Nat → Bool) :
    ∀ fuel s j,
      invokesOf (runFrom env pol cancel s fuel).2 j =
        acquiresOf (runFrom env pol cancel s fuel).2 j := by
  intro fuel
  induction fuel with
  | zero =>
    intro s j
    simp [runFrom, invokesOf, acquiresOf]
  | succ g ih =>
    intro s j
    rcases runFrom_shape env pol cancel s (g + 1) with
      ⟨h0, _⟩ | ⟨_, htr⟩ | ⟨m, hm, htr | ⟨g', hg', htr⟩⟩
    · omega
    · simp [htr, invokesOf, acquiresOf]
    · rcases hm with rfl | rfl <;> simp [htr, invokesOf, acquiresOf]
    · have hgg : g' = g := by omega
      rw [hgg] at htr
      rcases hm with rfl | rfl <;>
        simp [htr, invokesOf_append, acquiresOf_append, invokesOf, acquiresOf, ih (s + 1) j]

/-- The acquire/release skeleton of a `runFrom` trace is a sequence of
matched pairs with strictly increasing session numbers. -/
theorem runFrom_sessionShape (env : Nat → AttemptBehavior α) (pol : RetryPolicy)
    (cancel : Nat → Bool) :
    ∀ fuel s, sessionShape s (sessionEvents (runFrom env pol cancel s fuel).2) = true := by
  intro fuel
  induction fuel with
  | zero =>
    intro s
    simp [runFrom, sessionEvents, sessionShape]
  | succ g ih =>
    intro s
    rcases runFrom_shape env pol cancel s (g + 1) with
      ⟨h0, _⟩ | ⟨_, htr⟩ | ⟨m, hm, htr | ⟨g', hg', htr⟩⟩
    · omega
    · simp [htr, sessionEvents, sessionShape]
    · rcases hm with rfl | rfl <;> simp [htr, sessionEvents, sessionShape]
    · have hgg : g' = g := by omega
      rw [hgg] at htr
      rcases hm with rfl | rfl <;>
      · rw [htr, sessionEvents_append]
        simp [sessionEvents, sessionShape, ih (s + 1)]

/-- When session acquisition succeeds and budget remains, the trace of
`runFrom` begins with the acquisition of attempt `s`'s session. -/
theorem runFrom_starts_acquire (env : Nat → AttemptBehavior α) (pol : RetryPolicy)
    (cancel : Nat → Bool) (s g : Nat) (ha : (env s).acquireOk = true) :
    ∃ rest, (runFrom env pol cancel s (g + 1)).2 = .acquire s :: rest := by
  rcases runFrom_shape env pol cancel s (g + 1) with
    ⟨h0, _⟩ | ⟨hf, _⟩ | ⟨m, hm, htr | ⟨g', hg', htr⟩⟩
  · omega
  · rw [ha] at hf
    cases hf
  · exact ⟨_, htr⟩
  · exact ⟨_, htr⟩

end UnitOfWork

namespace UnitOfWork

variable {α : Type}

/-- Skipping a run of transient attempts: if attempts `s .. s+m-1` all
acquire a session, fail transiently and see no cancellation, the run
continues at attempt `s+m` with the budget reduced by `m`, having
recorded exactly `m` extra attempts. -/
theorem runFrom_skip_transients (env : Nat → AttemptBehavior α) (pol : RetryPolicy)
    (cancel : Nat → Bool) (c : Nat → String) :
    ∀ m s fuel, m < fuel →
      (∀ j, j < m → (env (s + j)).acquireOk = true ∧
        (env (s + j)).op = .transient (c (s + j)) ∧ cancel (s + j) = false) →
      (runFrom env pol cancel s fuel).1 = (runFrom env pol cancel (s + m) (fuel - m)).1
      ∧ attemptsIn (runFrom env pol cancel s fuel).2 =
          m + attemptsIn (runFrom env pol cancel (s + m) (fuel - m)).2 := by
  intro m
  induction m with
  | zero =>
    intro s fuel _ _
    simp
  | succ n ih =>
    intro s fuel hlt henv
    obtain ⟨f, rfl⟩ : ∃ f, fuel = f + 1 := ⟨fuel - 1, by omega⟩
    obtain ⟨ha, ho, hnc⟩ := henv 0 (Nat.succ_pos n)
    rw [Nat.add_zero] at ha ho hnc
    have hf : f ≠ 0 := by omega
    have hstep := runFrom_transient_step env pol cancel s f (c s) hf ha ho hnc
    have hrec := ih (s + 1) f (by omega) (fun j hj => by
      have := henv (j + 1) (by omega)
      rwa [show s + (j + 1) = s + 1 + j by omega] at this)
    constructor
    · rw [hstep]
      rw [hrec.1]
      rw [show s + 1 + n = s + (n + 1) by omega, show f - n = f + 1 - (n + 1) by omega]
    · have htr : (runFrom env pol cancel s (f + 1)).2 =
          [.acquire s, .invoke s, .abort s, .release s, .wait (pol.backoff s)] ++
            (runFrom env pol cancel (s + 1) f).2 := by
        rw [hstep]
      rw [htr, attemptsIn_append, hrec.2,
          show s + 1 + n = s + (n + 1) by omega, show f - n = f + 1 - (n + 1) by omega]
      simp [attemptsIn]
      omega

end UnitOfWork

namespace UnitOfWork

variable {α : Type}

/-- C1: an operation that reports a Fatal error on the first attempt
makes `Run` perform exactly 1 attempt and return that Fatal error,
with no retry, for every policy with `maxAttempts ≥ 1`. -/
theorem run_fatal_first_attempt (env : Nat → AttemptBehavior α) (pol : RetryPolicy)
    (cancel : Nat → Bool) (c : String)
    (hmax : 1 ≤ pol.maxAttempts)
    (ha : (env 0).acquireOk = true) (ho : (env 0).op = .fatal c) :
    (Run env pol cancel).1 = .error (.opFatal c)
    ∧ attemptsIn (Run env pol cancel).2 = 1 := by
  obtain ⟨f, hfeq⟩ : ∃ f, pol.maxAttempts = f + 1 := ⟨pol.maxAttempts - 1, by omega⟩
  unfold Run
  rw [hfeq, runFrom_fatal env pol cancel 0 f c ha ho]
  exact ⟨rfl, by simp [attemptsIn]⟩

/-- C2: an operation that reports Transient on every attempt makes
`Run` with `maxAttempts = N ≥ 1` perform exactly N attempts and return
`RetriesExhausted` wrapping the last transient cause. -/
theorem run_all_transient_exhausts_retries (env : Nat → AttemptBehavior α)
    (pol : RetryPolicy) (cancel : Nat → Bool) (c : Nat → String) (N : Nat)
    (hmax : pol.maxAttempts = N) (hN : 1 ≤ N)
    (henv : ∀ j, j < N → (env j).acquireOk = true ∧
      (env j).op = .transient (c j) ∧ cancel j = false) :
    (Run env pol cancel).1 = .error (.retriesExhausted (c (N - 1)))
    ∧ attemptsIn (Run env pol cancel).2 = N := by
  unfold Run
  rw [hmax]
  have hskip := runFrom_skip_transients env pol cancel c (N - 1) 0 N (by omega)
    (fun j hj => by simpa using henv j (by omega))
  rw [Nat.zero_add, show N - (N - 1) = 1 by omega] at hskip
  obtain ⟨haN, hoN, _⟩ := henv (N - 1) (by omega)
  have hlast := runFrom_transient_last env pol cancel (N - 1) (c (N - 1)) haN hoN
  constructor
  · rw [hskip.1, hlast]
  · rw [hskip.2, hlast]
    simp [attemptsIn]
    omega

/-- C5: an operation that fails transiently on attempts 1..k-1 and
succeeds with value v on attempt k ≤ maxAttempts makes `Run` perform
exactly k attempts and return that success value. -/
theorem run_success_on_attempt_k (env : Nat → AttemptBehavior α)
    (pol : RetryPolicy) (cancel : Nat → Bool) (c : Nat → String) (v : α) (k : Nat)
    (hk : 1 ≤ k) (hkN : k ≤ pol.maxAttempts)
    (htr : ∀ j, j < k - 1 → (env j).acquireOk = true ∧
      (env j).op = .transient (c j) ∧ cancel j = false)
    (ha : (env (k - 1)).acquireOk = true) (ho : (env (k - 1)).op = .success v)
    (hc : (env (k - 1)).commit = .ok) :
    (Run env pol cancel).1 = .ok v
    ∧ attemptsIn (Run env pol cancel).2 = k := by
  unfold Run
  have hskip := runFrom_skip_transients env pol cancel c (k - 1) 0 pol.maxAttempts
    (by omega) (fun j hj => by simpa using htr j hj)
  rw [Nat.zero_add] at hskip
  obtain ⟨f, hf⟩ : ∃ f, pol.maxAttempts - (k - 1) = f + 1 := ⟨pol.maxAttempts - k, by omega⟩
  rw [hf] at hskip
  have hok := runFrom_success_ok env pol cancel (k - 1) f v ha ho hc
  constructor
  · rw [hskip.1, hok]
  · rw [hskip.2, hok]
    simp [attemptsIn]
    omega

/-- C7: if, after a transient failure with attempts remaining, the
cancellation signal is observed during the backoff delay, `Run`
returns `Cancelled`, no further attempt starts (exactly i+1 attempts
in total), and every acquired session has been released. -/
theorem run_cancel_during_backoff (env : Nat → AttemptBehavior α)
    (pol : RetryPolicy) (cancel : Nat → Bool) (c : Nat → String) (i : Nat)
    (hrem : i + 1 < pol.maxAttempts)
    (htr : ∀ j, j < i → (env j).acquireOk = true ∧
      (env j).op = .transient (c j) ∧ cancel j = false)
    (ha : (env i).acquireOk = true) (ho : (env i).op = .transient (c i))
    (hcn : cancel i = true) :
    (Run env pol cancel).1 = .error .cancelled
    ∧ attemptsIn (Run env pol cancel).2 = i + 1
    ∧ ∀ j, releasesOf (Run env pol cancel).2 j = acquiresOf (Run env pol cancel).2 j := by
  unfold Run
  have hskip := runFrom_skip_transients env pol cancel c i 0 pol.maxAttempts
    (by omega) (fun j hj => by simpa using htr j hj)
  rw [Nat.zero_add] at hskip
  obtain ⟨f, hf, hfne⟩ : ∃ f, pol.maxAttempts - i = f + 1 ∧ f ≠ 0 :=
    ⟨pol.maxAttempts - i - 1, by omega, by omega⟩
  rw [hf] at hskip
  have hcancel := runFrom_transient_cancel env pol cancel i f (c i) hfne ha ho hcn
  refine ⟨?_, ?_, ?_⟩
  · rw [hskip.1, hcancel]
  · rw [hskip.2, hcancel]
    simp [attemptsIn]
  · intro j
    exact ((runFrom_balance env pol cancel pol.maxAttempts 0 j).1).symm

end UnitOfWork

namespace UnitOfWork

variable {α : Type}

/-- C3: release/acquire balance for every session on every path. -/
theorem run_session_release_once (env : Nat → AttemptBehavior α) (pol : RetryPolicy)
    (cancel : Nat → Bool) (j : Nat) :
    releasesOf (Run env pol cancel).2 j = acquiresOf (Run env pol cancel).2 j
    ∧ acquiresOf (Run env pol cancel).2 j ≤ 1
    ∧ invokesOf (Run env pol cancel).2 j = acquiresOf (Run env pol cancel).2 j := by
  obtain ⟨hb, hle, _⟩ := runFrom_balance env pol cancel pol.maxAttempts 0 j
  exact ⟨hb.symm, hle, runFrom_invokes_eq_acquires env pol cancel pol.maxAttempts 0 j⟩

/-- C4: sequential attempts and fresh sessions. -/
theorem run_attempts_sequential_fresh_sessions (env : Nat → AttemptBehavior α)
    (pol : RetryPolicy) (cancel : Nat → Bool) :
    sessionShape 0 (sessionEvents (Run env pol cancel).2) = true
    ∧ ∀ j, invokesOf (Run env pol cancel).2 j = acquiresOf (Run env pol cancel).2 j
        ∧ acquiresOf (Run env pol cancel).2 j ≤ 1 := by
  refine ⟨runFrom_sessionShape env pol cancel pol.maxAttempts 0, fun j => ?_⟩
  exact ⟨runFrom_invokes_eq_acquires env pol cancel pol.maxAttempts 0 j,
    (runFrom_balance env pol cancel pol.maxAttempts 0 j).2.1⟩

/-- After a chain of transient attempts `s .. s+m` (with budget and no
cancellation) and a successful acquisition for attempt `s+m+1`, the
trace contains the contiguous sequence: release of attempt `s+m`'s
session, backoff wait `backoff (s+m)`, acquisition of attempt
`s+m+1`'s session. -/
theorem runFrom_backoff_infix (env : Nat → AttemptBehavior α) (pol : RetryPolicy)
    (cancel : Nat → Bool) (c : Nat → String) :
    ∀ m s fuel, m + 1 < fuel →
      (∀ j, j ≤ m → (env (s + j)).acquireOk = true ∧
        (env (s + j)).op = .transient (c (s + j)) ∧ cancel (s + j) = false) →
      (env (s + m + 1)).acquireOk = true →
      List.IsInfix
        [Event.release (s + m), Event.wait (pol.backoff (s + m)), Event.acquire (s + m + 1)]
        (runFrom env pol cancel s fuel).2 := by
  intro m
  induction m with
  | zero =>
    intro s fuel hlt henv hnext
    obtain ⟨f, rfl⟩ : ∃ f, fuel = f + 1 := ⟨fuel - 1, by omega⟩
    obtain ⟨ha, ho, hnc⟩ := henv 0 (Nat.le_refl 0)
    rw [Nat.add_zero] at ha ho hnc
    have hf : f ≠ 0 := by omega
    have hstep := runFrom_transient_step env pol cancel s f (c s) hf ha ho hnc
    have htr2 : (runFrom env pol cancel s (f + 1)).2 =
        [.acquire s, .invoke s, .abort s, .release s, .wait (pol.backoff s)] ++
          (runFrom env pol cancel (s + 1) f).2 := by
      rw [hstep]
    obtain ⟨g, rfl⟩ : ∃ g, f = g + 1 := ⟨f - 1, by omega⟩
    obtain ⟨rest, hrest⟩ := runFrom_starts_acquire env pol cancel (s + 1) g
      (by simpa using hnext)
    rw [htr2, hrest]
    refine ⟨[.acquire s, .invoke s, .abort s], rest, ?_⟩
    simp
  | succ n ih =>
    intro s fuel hlt henv hnext
    obtain ⟨f, rfl⟩ : ∃ f, fuel = f + 1 := ⟨fuel - 1, by omega⟩
    obtain ⟨ha, ho, hnc⟩ := henv 0 (Nat.zero_le _)
    rw [Nat.add_zero] at ha ho hnc
    have hf : f ≠ 0 := by omega
    have hstep := runFrom_transient_step env pol cancel s f (c s) hf ha ho hnc
    have htr2 : (runFrom env pol cancel s (f + 1)).2 =
        [.acquire s, .invoke s, .abort s, .release s, .wait (pol.backoff s)] ++
          (runFrom env pol cancel (s + 1) f).2 := by
      rw [hstep]
    have hrec := ih (s + 1) f (by omega)
      (fun j hj => by
        have := henv (j + 1) (by omega)
        rwa [show s + (j + 1) = s + 1 + j by omega] at this)
      (by rwa [show s + 1 + n + 1 = s + (n + 1) + 1 by omega])
    rw [show s + 1 + n = s + (n + 1) by omega] at hrec
    obtain ⟨u, v, huv⟩ := hrec
    rw [htr2]
    refine ⟨[.acquire s, .invoke s, .abort s, .release s, .wait (pol.backoff s)] ++ u, v, ?_⟩
    rw [← huv]
    simp

/-- C6: backoff between a transient failure and the next attempt. -/
theorem run_backoff_between_attempts (env : Nat → AttemptBehavior α)
    (pol : RetryPolicy) (cancel : Nat → Bool) (c : Nat → String) (i : Nat)
    (hrem : i + 1 < pol.maxAttempts)
    (htr : ∀ j, j ≤ i → (env j).acquireOk = true ∧
      (env j).op = .transient (c j) ∧ cancel j = false)
    (hnext : (env (i + 1)).acquireOk = true) :
    List.IsInfix [Event.release i, Event.wait (pol.backoff i), Event.acquire (i + 1)]
      (Run env pol cancel).2 := by
  have h := runFrom_backoff_infix env pol cancel c i 0 pol.maxAttempts hrem
    (by simpa using htr) (by simpa using hnext)
  simpa using h

end UnitOfWork

namespace UnitOfWork

/-- Concrete instance of C1 (spec scenario C): outcomes `[Fatal]`,
`maxAttempts = 5`. -/
theorem run_fatal_first_attempt_witness :
    (Run (fun _ => (⟨true, .fatal "boom", .ok⟩ : AttemptBehavior Nat))
      ⟨5, fun _ => 7⟩ (fun _ => false)).1 = .error (.opFatal "boom")
    ∧ attemptsIn (Run (fun _ => (⟨true, .fatal "boom", .ok⟩ : AttemptBehavior Nat))
      ⟨5, fun _ => 7⟩ (fun _ => false)).2 = 1 :=
  run_fatal_first_attempt _ _ _ "boom" (by decide) rfl rfl

/-- Concrete instance of C2 (spec scenario B): outcomes all Transient,
`maxAttempts = 3`. -/
theorem run_all_transient_exhausts_retries_witness :
    (Run (fun _ => (⟨true, .transient "wc", .ok⟩ : AttemptBehavior Nat))
      ⟨3, fun _ => 1000⟩ (fun _ => false)).1 = .error (.retriesExhausted "wc")
    ∧ attemptsIn (Run (fun _ => (⟨true, .transient "wc", .ok⟩ : AttemptBehavior Nat))
      ⟨3, fun _ => 1000⟩ (fun _ => false)).2 = 3 :=
  run_all_transient_exhausts_retries _ _ _ (fun _ => "wc") 3 rfl (by decide)
    (fun _ _ => ⟨rfl, rfl, rfl⟩)

/-- Concrete instance of C5 (spec scenario A): outcomes
`[Transient, Transient, Success 42]`, `maxAttempts = 3`. -/
theorem run_success_on_attempt_k_witness :
    (Run (fun i => if i < 2 then (⟨true, .transient "wc", .ok⟩ : AttemptBehavior Nat)
        else ⟨true, .success 42, .ok⟩) ⟨3, fun _ => 1000⟩ (fun _ => false)).1 = .ok 42
    ∧ attemptsIn (Run (fun i => if i < 2 then (⟨true, .transient "wc", .ok⟩ : AttemptBehavior Nat)
        else ⟨true, .success 42, .ok⟩) ⟨3, fun _ => 1000⟩ (fun _ => false)).2 = 3 :=
  run_success_on_attempt_k _ _ _ (fun _ => "wc") 42 3 (by decide) (by decide)
    (by decide) (by decide) (by decide) (by decide)

/-- Concrete instance of C6: after attempt 1 fails transiently, the
trace shows release, the scheduled 100-unit backoff, then the fresh
acquisition for attempt 2. -/
theorem run_backoff_between_attempts_witness :
    List.IsInfix [Event.release 0, Event.wait 100, Event.acquire 1]
      (Run (fun _ => (⟨true, .transient "wc", .ok⟩ : AttemptBehavior Nat))
        ⟨3, fun i => 100 * (i + 1)⟩ (fun _ => false)).2 :=
  run_backoff_between_attempts
    (fun _ => (⟨true, .transient "wc", .ok⟩ : AttemptBehavior Nat))
    ⟨3, fun i => 100 * (i + 1)⟩ (fun _ => false) (fun _ => "wc") 0 (by decide)
    (fun _ _ => ⟨rfl, rfl, rfl⟩) rfl

/-- Concrete instance of C7: cancellation observed during the backoff
after the first transient failure stops the run with `Cancelled` after
exactly one attempt, with attempt 1's session released. -/
theorem run_cancel_during_backoff_witness :
    (Run (fun _ => (⟨true, .transient "wc", .ok⟩ : AttemptBehavior Nat))
      ⟨3, fun _ => 1000⟩ (fun i => i == 0)).1 = .error .cancelled
    ∧ attemptsIn (Run (fun _ => (⟨true, .transient "wc", .ok⟩ : AttemptBehavior Nat))
      ⟨3, fun _ => 1000⟩ (fun i => i == 0)).2 = 1
    ∧ releasesOf (Run (fun _ => (⟨true, .transient "wc", .ok⟩ : AttemptBehavior Nat))
      ⟨3, fun _ => 1000⟩ (fun i => i == 0)).2 0 =
      acquiresOf (Run (fun _ => (⟨true, .transient "wc", .ok⟩ : AttemptBehavior Nat))
      ⟨3, fun _ => 1000⟩ (fun i => i == 0)).2 0 := by
  have h := run_cancel_during_backoff
    (fun _ => (⟨true, .transient "wc", .ok⟩ : AttemptBehavior Nat))
    ⟨3, fun _ => 1000⟩ (fun i => i == 0) (fun _ => "wc") 0 (by decide)
    (fun j hj => absurd hj (Nat.not_lt_zero j)) rfl rfl rfl
  exact ⟨h.1, h.2.1, h.2.2 0⟩

end UnitOfWork

namespace Repo

/-- When the target file already exists, `resultSaver` leaves the file
system completely unchanged. -/
theorem resultSaver_of_present (fsys : String → Option String) (data filename : String)
    (h : (fsys ("src/" ++ filename ++ ".json")).isSome = true) :
    resultSaver fsys data filename = fsys := by
  unfold resultSaver
  simp [h]

/-- C8: `resultSaver` writes `src/<filename>.json` only when absent,
touches no other path, and a second call with the same filename never
overwrites the first result. -/
theorem resultSaver_writes_only_if_absent (fsys : String → Option String)
    (data filename p : String) :
    resultSaver fsys data filename p =
      (if p = "src/" ++ filename ++ ".json" then
         (if (fsys p).isSome then fsys p else some data)
       else fsys p)
    ∧ ∀ d2, resultSaver (resultSaver fsys data filename) d2 filename p =
        resultSaver fsys data filename p := by
  constructor
  · unfold resultSaver
    by_cases h : (fsys ("src/" ++ filename ++ ".json")).isSome = true
    · by_cases hp : p = "src/" ++ filename ++ ".json"
      · subst hp
        simp [h]
      · simp [h, hp]
    · by_cases hp : p = "src/" ++ filename ++ ".json"
      · subst hp
        simp [h]
      · simp [h, hp]
  · intro d2
    have hsome : (resultSaver fsys data filename ("src/" ++ filename ++ ".json")).isSome = true := by
      unfold resultSaver
      by_cases h : (fsys ("src/" ++ filename ++ ".json")).isSome = true
      · simp [h]
      · simp [h]
    rw [resultSaver_of_present (resultSaver fsys data filename) d2 filename hsome]

/-- Round trip of a valid code point through `Char.ofNat`. -/
theorem toNat_ofNat_of_valid (n : Nat) (h : n.isValidChar) : (Char.ofNat n).toNat = n := by
  simp only [Char.ofNat, dif_pos h]
  unfold Char.ofNatAux Char.toNat
  simp [UInt32.toNat, BitVec.toNat_ofNatLt]

/-- `Char.toLower` as an explicit conditional. -/
theorem charToLower_eq (d : Char) :
    d.toLower = if d.toNat ≥ 65 ∧ d.toNat ≤ 90 then Char.ofNat (d.toNat + 32) else d := rfl

/-- Lowercasing is idempotent, character by character. -/
theorem charToLower_idem (c : Char) : (c.toLower).toLower = c.toLower := by
  by_cases h : c.toNat ≥ 65 ∧ c.toNat ≤ 90
  · have h1 : c.toLower = Char.ofNat (c.toNat + 32) := by
      rw [charToLower_eq c]
      simp [h]
    have hv : (c.toNat + 32).isValidChar := Or.inl (by omega)
    have ht : (c.toLower).toNat = c.toNat + 32 := by
      rw [h1]
      exact toNat_ofNat_of_valid _ hv
    have h2 : ¬(c.toLower.toNat ≥ 65 ∧ c.toLower.toNat ≤ 90) := by
      rw [ht]
      omega
    rw [charToLower_eq (c.toLower), if_neg h2]
  · have h1 : c.toLower = c := by
      rw [charToLower_eq c]
      simp [h]
    rw [h1, h1]

/-- Lowercasing is idempotent on strings. -/
theorem jsToLowerCase_idem (s : String) :
    jsToLowerCase (jsToLowerCase s) = jsToLowerCase s := by
  unfold jsToLowerCase
  simp only [List.map_map]
  congr 1
  exact List.map_congr_left (fun c _ => charToLower_idem c)

/-- C9: `findByEmail` lowercases its argument before querying, so an
input and its lowercased form issue the same query and return the same
result. -/
theorem findByEmail_case_insensitive (docs : List UserDoc) (e : String) :
    findByEmailQuery e = findByEmailQuery (jsToLowerCase e)
    ∧ findByEmail docs e = findByEmail docs (jsToLowerCase e) := by
  have hq : findByEmailQuery e = findByEmailQuery (jsToLowerCase e) := by
    unfold findByEmailQuery
    exact (jsToLowerCase_idem e).symm
  exact ⟨hq, by unfold findByEmail; rw [hq]⟩

/-- C10: `rent` increments `rentedCount` by exactly one (absent counts
as zero, so the result is defined and at least 1), stamps `lastRented`
with the current time, and modifies no other field. -/
theorem rent_increments_rentedCount (m : MovieDoc) (now : Nat) :
    (rent m now).rentedCount = some (m.rentedCount.getD 0 + 1)
    ∧ (∃ n, (rent m now).rentedCount = some n ∧ 1 ≤ n)
    ∧ (rent m now).lastRented = some now
    ∧ (rent m now).title = m.title
    ∧ (rent m now).year = m.year
    ∧ (rent m now).genres = m.genres := by
  refine ⟨rfl, ⟨m.rentedCount.getD 0 + 1, rfl, by omega⟩, rfl, rfl, rfl, rfl⟩

end Repo
